import Mathlib

/-!
Verification of the Leftover puzzle core (`src/utils/gameLogic.ts`,
`src/constants.ts`, `src/types.ts`) against its specification.

The board is a fixed `GRID_SIZE × GRID_SIZE` matrix of cells; shapes are
lists of integer offsets.  JS `number`s holding grid coordinates are
modelled as `Int` (the source compares them against `0` and `GRID_SIZE`),
counters (`linesCleared`, `junkCreated`, `points`, combo) as `Nat`, and the
optional string fields `color` / `blockId` as `Option String`.
-/

namespace Leftover

/-- `GRID_SIZE` in `constants.ts`. -/
abbrev GRID_SIZE : Nat := 6

/-- `JUNK_COLOR` in `constants.ts`. -/
def JUNK_COLOR : String := "#475569"

/-- `Coordinate` in `types.ts`: an integer cell offset or position. -/
structure Coordinate where
  x : Int
  y : Int
deriving DecidableEq

/-- `CellStatus` in `types.ts`. -/
inductive CellStatus where
  | empty
  | filled
  | junk
deriving DecidableEq

/-- `CellData` in `types.ts`.  The `id` field is a presentational React key;
it is carried through every update via object spread and never read by the
game logic. -/
structure CellData where
  id : String
  status : CellStatus
  color : Option String := none
  blockId : Option String := none
deriving DecidableEq

/-- `BlockDefinition` in `types.ts`.  The optional `basePoints` field is
never read by the game logic and is omitted. -/
structure BlockDefinition where
  id : String
  cells : List Coordinate
  color : String
deriving DecidableEq

/-- A board (`CellData[][]`), indexed row first: `g y x` is `grid[y][x]`. -/
def Board : Type := Fin GRID_SIZE → Fin GRID_SIZE → CellData

/-- `createEmptyGrid` in `constants.ts`: every cell empty, no color, no
block id. -/
def createEmptyGrid : Board := fun y x =>
  { id := "cell-" ++ toString x.val ++ "-" ++ toString y.val, status := .empty }

/-- `Math.min(...list)` on a non-empty integer list (the source only ever
takes the minimum of the coordinate list of a shape, which the game never
constructs empty; the `0` default for `[]` is arbitrary). -/
def listMin : List Int → Int
  | [] => 0
  | a :: as => as.foldl min a

/-- The comparator `(a, b) => (a.y - b.y) || (a.x - b.x)` passed to
`Array.sort` in `rotateBlockDefinition`: ascending by `y`, then by `x`. -/
def cellLE (a b : Coordinate) : Bool :=
  decide (a.y < b.y) || (a.y == b.y && decide (a.x ≤ b.x))

/-- `rotateBlockDefinition` in `gameLogic.ts`: rotate every offset by
`(x, y) ↦ (-y, x)`, re-normalize by subtracting the new minima, sort. -/
def rotateBlockDefinition (block : BlockDefinition) : BlockDefinition :=
  let rotatedCells := block.cells.map fun cell => ({ x := -cell.y, y := cell.x } : Coordinate)
  let minX := listMin (rotatedCells.map (·.x))
  let minY := listMin (rotatedCells.map (·.y))
  let normalizedCells := rotatedCells.map fun cell =>
    ({ x := cell.x - minX, y := cell.y - minY } : Coordinate)
  { block with cells := normalizedCells.mergeSort cellLE }

/-- Conversion of an integer coordinate to a grid index: `some` exactly when
`0 ≤ v < GRID_SIZE` (the source's bounds check `v < 0 || v >= GRID_SIZE`). -/
def idx? (v : Int) : Option (Fin GRID_SIZE) :=
  if h : 0 ≤ v ∧ v < GRID_SIZE then some ⟨v.toNat, by omega⟩ else none

/-- `canPlaceBlock` in `gameLogic.ts`: every shape cell must land in bounds
on an `empty` cell. -/
def canPlaceBlock (grid : Board) (block : BlockDefinition)
    (targetX targetY : Int) : Bool :=
  block.cells.all fun cell =>
    match idx? (targetX + cell.x), idx? (targetY + cell.y) with
    | some fx, some fy => (grid fy fx).status == .empty
    | _, _ => false

/-- `canPlaceInAnyOrientation` in `gameLogic.ts`: try the original block and
its three further rotations (`rotateBlockDefinition^[i] block` for
`i = 0, 1, 2, 3`), over every anchor `(x, y)` with `0 ≤ x, y < GRID_SIZE`. -/
def canPlaceInAnyOrientation (grid : Board) (block : BlockDefinition) : Bool :=
  (List.range 4).any fun i =>
    (List.range GRID_SIZE).any fun y =>
      (List.range GRID_SIZE).any fun x =>
        canPlaceBlock grid (rotateBlockDefinition^[i] block) (Int.ofNat x) (Int.ofNat y)

/-- `canPlaceAny` in `gameLogic.ts`. -/
def canPlaceAny (grid : Board) (hand : List BlockDefinition) : Bool :=
  if hand.isEmpty then true
  else hand.any fun block => canPlaceInAnyOrientation grid block

/-- One stamped cell:
`{...cell, status: 'filled', color: block.color, blockId: block.id}`. -/
def stampCell (block : BlockDefinition) (c : CellData) : CellData :=
  { c with status := .filled, color := some block.color, blockId := some block.id }

/-- Functional update of one grid entry (`newGrid[fy][fx] = c`). -/
def setCell (g : Board) (fy fx : Fin GRID_SIZE) (c : CellData) : Board :=
  fun y x => if y = fy ∧ x = fx then c else g y x

/-- One iteration of the stamping loop of `placeBlockAndProcess` (step 2).
The source writes `newGrid[y][x]` directly; the caller is contractually
required to have checked `canPlaceBlock`, so the write is in range — the
out-of-range case is modelled as a no-op. -/
def stampStep (block : BlockDefinition) (targetX targetY : Int)
    (g : Board) (cell : Coordinate) : Board :=
  match idx? (targetX + cell.x), idx? (targetY + cell.y) with
  | some fx, some fy => setCell g fy fx (stampCell block (g fy fx))
  | _, _ => g

/-- Step 2 of `placeBlockAndProcess`: stamp every shape cell onto the board
copy. -/
def stampGrid (grid : Board) (block : BlockDefinition)
    (targetX targetY : Int) : Board :=
  block.cells.foldl (stampStep block targetX targetY) grid

/-- Step 3 of `placeBlockAndProcess`: indices of full rows — a row is full
iff every cell in it is non-empty (`filled` or `junk`). -/
def fullRows (g : Board) : List (Fin GRID_SIZE) :=
  (List.finRange GRID_SIZE).filter fun y =>
    (List.finRange GRID_SIZE).all fun x => (g y x).status != .empty

/-- Step 3 of `placeBlockAndProcess`: indices of full columns. -/
def fullCols (g : Board) : List (Fin GRID_SIZE) :=
  (List.finRange GRID_SIZE).filter fun x =>
    (List.finRange GRID_SIZE).all fun y => (g y x).status != .empty

/-- Step 4 of `placeBlockAndProcess`: membership in `affectedBlockIds`, the
set of block ids found on cells of full rows and full columns (the source
adds `cell.blockId` whenever the optional field is present). -/
def affectedBlockIds (g : Board) (bid : String) : Bool :=
  ((fullRows g).any fun y =>
    (List.finRange GRID_SIZE).any fun x => (g y x).blockId == some bid)
  || ((fullCols g).any fun x =>
    (List.finRange GRID_SIZE).any fun y => (g y x).blockId == some bid)

/-- Step 5 of `placeBlockAndProcess`: membership of coordinate `(x, y)` in
the `clearedCells` set — the union of the full rows and full columns. -/
def clearedCells (g : Board) (y x : Fin GRID_SIZE) : Bool :=
  (fullRows g).contains y || (fullCols g).contains x

/-- The per-cell update of step 5, combining the construction of the
`updates` list with its application (each coordinate is pushed at most
once, and an update rewrites `status`, `color := u.color` — absent, hence
`none`, for the cells being emptied — and `blockId := undefined`):
junk is untouched; a filled cell on a cleared line becomes empty; a filled
cell off the cleared lines whose block id is affected becomes junk. -/
def processCell (isCleared : Bool) (affected : String → Bool)
    (cell : CellData) : CellData :=
  if cell.status = .junk then cell
  else if cell.status = .filled then
    if isCleared then { cell with status := .empty, color := none, blockId := none }
    else
      match cell.blockId with
      | some bid =>
          if affected bid then
            { cell with status := .junk, color := some JUNK_COLOR, blockId := none }
          else cell
      | none => cell
  else cell

/-- Whether the step-5 update turns this cell into junk (the branch that
executes `junkCreated++`). -/
def makesJunk (isCleared : Bool) (affected : String → Bool)
    (cell : CellData) : Bool :=
  decide (cell.status = .filled) && !isCleared &&
    (match cell.blockId with
     | some bid => affected bid
     | none => false)

/-- All grid coordinates `(y, x)`, in the row-major order of the source's
double loop. -/
def allCoords : List (Fin GRID_SIZE × Fin GRID_SIZE) :=
  (List.finRange GRID_SIZE).flatMap fun y =>
    (List.finRange GRID_SIZE).map fun x => (y, x)

/-- The `PlacementResult` record returned by `placeBlockAndProcess`. -/
structure PlacementResult where
  newGrid : Board
  linesCleared : Nat
  junkCreated : Nat
  points : Nat
  newCombo : Nat

/-- `placeBlockAndProcess` in `gameLogic.ts`. -/
def placeBlockAndProcess (currentGrid : Board) (block : BlockDefinition)
    (targetX targetY : Int) (currentCombo : Nat := 0) : PlacementResult :=
  let newGrid := stampGrid currentGrid block targetX targetY
  let linesCleared := (fullRows newGrid).length + (fullCols newGrid).length
  if 0 < linesCleared then
    let junkCreated := allCoords.countP fun p =>
      makesJunk (clearedCells newGrid p.1 p.2) (affectedBlockIds newGrid) (newGrid p.1 p.2)
    let finalGrid : Board := fun y x =>
      processCell (clearedCells newGrid y x) (affectedBlockIds newGrid) (newGrid y x)
    let newCombo := if junkCreated == 0 then currentCombo + 1 else 0
    let points := linesCleared * 100
      + (if junkCreated == 0 then 50 * linesCleared else 0)
      + (if 1 < newCombo then (newCombo - 1) * 100 else 0)
    { newGrid := finalGrid, linesCleared := linesCleared,
      junkCreated := junkCreated, points := points, newCombo := newCombo }
  else
    { newGrid := newGrid, linesCleared := linesCleared, junkCreated := 0,
      points := block.cells.length * 10, newCombo := 0 }

/-! ### Basic lemmas about indexing and stamping -/

theorem idx?_eq_some {v : Int} {f : Fin GRID_SIZE} :
    idx? v = some f ↔ v = (f.val : Int) := by
  unfold idx?
  split
  · rename_i h
    simp only [Option.some.injEq]
    constructor
    · rintro rfl
      simp [Int.toNat_of_nonneg h.1]
    · rintro rfl
      apply Fin.ext
      simp
  · rename_i h
    simp only [reduceCtorEq, false_iff]
    rintro rfl
    exact h ⟨by positivity, by exact_mod_cast f.isLt⟩

/-- Where a stamp writes: the shape has a cell landing on grid index
`(fx, fy)`. -/
def StampedAt (block : BlockDefinition) (targetX targetY : Int)
    (fy fx : Fin GRID_SIZE) : Prop :=
  ∃ c ∈ block.cells, targetX + c.x = (fx.val : Int) ∧ targetY + c.y = (fy.val : Int)

instance (block : BlockDefinition) (tx ty : Int) (fy fx : Fin GRID_SIZE) :
    Decidable (StampedAt block tx ty fy fx) := by
  unfold StampedAt
  infer_instance

theorem stampCell_idem (block : BlockDefinition) (c : CellData) :
    stampCell block (stampCell block c) = stampCell block c := rfl

theorem stampFold_apply (block : BlockDefinition) (tx ty : Int) :
    ∀ (l : List Coordinate) (grid : Board) (fy fx : Fin GRID_SIZE),
      (l.foldl (stampStep block tx ty) grid) fy fx =
        if ∃ c ∈ l, tx + c.x = (fx.val : Int) ∧ ty + c.y = (fy.val : Int)
        then stampCell block (grid fy fx)
        else grid fy fx := by
  intro l
  induction l with
  | nil => intro grid fy fx; simp
  | cons c cs ih =>
    intro grid fy fx
    simp only [List.foldl_cons, ih]
    by_cases hc : tx + c.x = (fx.val : Int) ∧ ty + c.y = (fy.val : Int)
    · have hstep : stampStep block tx ty grid c fy fx = stampCell block (grid fy fx) := by
        unfold stampStep
        rw [show idx? (tx + c.x) = some fx from idx?_eq_some.mpr hc.1,
            show idx? (ty + c.y) = some fy from idx?_eq_some.mpr hc.2]
        simp [setCell]
      rw [hstep, stampCell_idem, ite_self,
        if_pos (show ∃ c' ∈ c :: cs, tx + c'.x = (fx.val : Int) ∧ ty + c'.y = (fy.val : Int)
          from ⟨c, List.mem_cons_self c cs, hc⟩)]
    · have hstep : stampStep block tx ty grid c fy fx = grid fy fx := by
        unfold stampStep
        rcases h1 : idx? (tx + c.x) with _ | fx'
        · rfl
        rcases h2 : idx? (ty + c.y) with _ | fy'
        · rfl
        simp only [setCell]
        rw [if_neg]
        rintro ⟨rfl, rfl⟩
        exact hc ⟨idx?_eq_some.mp h1, idx?_eq_some.mp h2⟩
      rw [hstep]
      apply if_congr _ rfl rfl
      constructor
      · rintro ⟨c', hmem, hcc⟩
        exact ⟨c', List.mem_cons_of_mem _ hmem, hcc⟩
      · rintro ⟨c', hmem, hcc⟩
        rcases List.mem_cons.mp hmem with rfl | hmem'
        · exact absurd hcc hc
        · exact ⟨c', hmem', hcc⟩

theorem stampGrid_apply (grid : Board) (block : BlockDefinition)
    (tx ty : Int) (fy fx : Fin GRID_SIZE) :
    stampGrid grid block tx ty fy fx =
      if StampedAt block tx ty fy fx
      then stampCell block (grid fy fx)
      else grid fy fx :=
  stampFold_apply block tx ty block.cells grid fy fx

/-! ### Characterizations of the line scan -/

theorem mem_fullRows {g : Board} {y : Fin GRID_SIZE} :
    y ∈ fullRows g ↔ ∀ x, (g y x).status ≠ .empty := by
  simp [fullRows, List.mem_filter, List.all_eq_true]

theorem mem_fullCols {g : Board} {x : Fin GRID_SIZE} :
    x ∈ fullCols g ↔ ∀ y, (g y x).status ≠ .empty := by
  simp [fullCols, List.mem_filter, List.all_eq_true]

/-- A coordinate's membership in the cleared cell set, stated as the spec
does: the cell lies on some full row or some full column. -/
def SpecCleared (g : Board) (y x : Fin GRID_SIZE) : Prop :=
  (∀ x', (g y x').status ≠ .empty) ∨ (∀ y', (g y' x).status ≠ .empty)

instance (g : Board) (y x : Fin GRID_SIZE) : Decidable (SpecCleared g y x) := by
  unfold SpecCleared
  infer_instance

theorem clearedCells_iff {g : Board} {y x : Fin GRID_SIZE} :
    clearedCells g y x = true ↔ SpecCleared g y x := by
  simp [clearedCells, SpecCleared, List.contains_iff_exists_mem_beq, beq_iff_eq,
    mem_fullRows, mem_fullCols]

/-- Membership in the affected-owner set, stated as the spec does: some
`filled` cell of the cleared cell set carries this owner id. -/
def SpecAffected (g : Board) (bid : String) : Prop :=
  ∃ y x, SpecCleared g y x ∧ (g y x).status = .filled ∧ (g y x).blockId = some bid

instance (g : Board) (bid : String) : Decidable (SpecAffected g bid) := by
  unfold SpecAffected
  infer_instance

/-- The cell-`ownerId` invariant of the data model: a cell carries a block
id exactly when its status is `filled`. -/
def OwnerInv (g : Board) : Prop :=
  ∀ fy fx, ((g fy fx).blockId).isSome ↔ (g fy fx).status = .filled

instance (g : Board) : Decidable (OwnerInv g) := by
  unfold OwnerInv
  infer_instance

/-- On a board satisfying the owner invariant, the code's
`affectedBlockIds` set coincides with the spec's affected-owner set. -/
theorem affectedBlockIds_iff {g : Board} (hwf : OwnerInv g) (bid : String) :
    affectedBlockIds g bid = true ↔ SpecAffected g bid := by
  unfold affectedBlockIds SpecAffected
  simp only [Bool.or_eq_true, List.any_eq_true, List.mem_finRange, true_and,
    beq_iff_eq]
  constructor
  · rintro (⟨y, hy, x, hb⟩ | ⟨x, hx, y, hb⟩)
    · exact ⟨y, x, Or.inl (mem_fullRows.mp hy),
        (hwf y x).mp (by simp [hb]), hb⟩
    · exact ⟨y, x, Or.inr (mem_fullCols.mp hx),
        (hwf y x).mp (by simp [hb]), hb⟩
  · rintro ⟨y, x, hcl | hcl, _hf, hb⟩
    · exact Or.inl ⟨y, mem_fullRows.mpr hcl, x, hb⟩
    · exact Or.inr ⟨x, mem_fullCols.mpr hcl, y, hb⟩

/-! ### Branch lemmas for `placeBlockAndProcess` -/

theorem placeBlockAndProcess_linesCleared (grid : Board) (block : BlockDefinition)
    (tx ty : Int) (combo : Nat) :
    (placeBlockAndProcess grid block tx ty combo).linesCleared =
      (fullRows (stampGrid grid block tx ty)).length
        + (fullCols (stampGrid grid block tx ty)).length := by
  simp only [placeBlockAndProcess]
  split <;> rfl

theorem placeBlockAndProcess_pos (grid : Board) (block : BlockDefinition)
    (tx ty : Int) (combo : Nat)
    (hl : 0 < (fullRows (stampGrid grid block tx ty)).length
        + (fullCols (stampGrid grid block tx ty)).length) :
    placeBlockAndProcess grid block tx ty combo =
      let st := stampGrid grid block tx ty
      let junkCreated := allCoords.countP fun p =>
        makesJunk (clearedCells st p.1 p.2) (affectedBlockIds st) (st p.1 p.2)
      let newCombo := if junkCreated == 0 then combo + 1 else 0
      { newGrid := fun y x =>
          processCell (clearedCells st y x) (affectedBlockIds st) (st y x),
        linesCleared := (fullRows st).length + (fullCols st).length,
        junkCreated := junkCreated,
        points := ((fullRows st).length + (fullCols st).length) * 100
          + (if junkCreated == 0 then 50 * ((fullRows st).length + (fullCols st).length) else 0)
          + (if 1 < newCombo then (newCombo - 1) * 100 else 0),
        newCombo := newCombo } := by
  simp only [placeBlockAndProcess]
  rw [if_pos hl]

theorem placeBlockAndProcess_junkCreated_pos (grid : Board) (block : BlockDefinition)
    (tx ty : Int) (combo : Nat)
    (hl : 0 < (fullRows (stampGrid grid block tx ty)).length
        + (fullCols (stampGrid grid block tx ty)).length) :
    (placeBlockAndProcess grid block tx ty combo).junkCreated =
      allCoords.countP fun p =>
        makesJunk (clearedCells (stampGrid grid block tx ty) p.1 p.2)
          (affectedBlockIds (stampGrid grid block tx ty))
          (stampGrid grid block tx ty p.1 p.2) := by
  simp only [placeBlockAndProcess]
  rw [if_pos hl]

theorem placeBlockAndProcess_newGrid_pos (grid : Board) (block : BlockDefinition)
    (tx ty : Int) (combo : Nat)
    (hl : 0 < (fullRows (stampGrid grid block tx ty)).length
        + (fullCols (stampGrid grid block tx ty)).length) :
    (placeBlockAndProcess grid block tx ty combo).newGrid =
      fun fy fx =>
        processCell (clearedCells (stampGrid grid block tx ty) fy fx)
          (affectedBlockIds (stampGrid grid block tx ty))
          (stampGrid grid block tx ty fy fx) := by
  simp only [placeBlockAndProcess]
  rw [if_pos hl]

theorem placeBlockAndProcess_newCombo_pos (grid : Board) (block : BlockDefinition)
    (tx ty : Int) (combo : Nat)
    (hl : 0 < (fullRows (stampGrid grid block tx ty)).length
        + (fullCols (stampGrid grid block tx ty)).length) :
    (placeBlockAndProcess grid block tx ty combo).newCombo =
      if (placeBlockAndProcess grid block tx ty combo).junkCreated = 0
      then combo + 1 else 0 := by
  rw [placeBlockAndProcess_junkCreated_pos grid block tx ty combo hl]
  simp only [placeBlockAndProcess]
  rw [if_pos hl]
  by_cases hj : (allCoords.countP fun p =>
      makesJunk (clearedCells (stampGrid grid block tx ty) p.1 p.2)
        (affectedBlockIds (stampGrid grid block tx ty))
        (stampGrid grid block tx ty p.1 p.2)) = 0 <;>
    simp [hj]

theorem placeBlockAndProcess_points_pos (grid : Board) (block : BlockDefinition)
    (tx ty : Int) (combo : Nat)
    (hl : 0 < (fullRows (stampGrid grid block tx ty)).length
        + (fullCols (stampGrid grid block tx ty)).length) :
    (placeBlockAndProcess grid block tx ty combo).points =
      (placeBlockAndProcess grid block tx ty combo).linesCleared * 100
      + (if (placeBlockAndProcess grid block tx ty combo).junkCreated = 0
          then 50 * (placeBlockAndProcess grid block tx ty combo).linesCleared else 0)
      + (if 1 < (placeBlockAndProcess grid block tx ty combo).newCombo
          then ((placeBlockAndProcess grid block tx ty combo).newCombo - 1) * 100
          else 0) := by
  rw [placeBlockAndProcess_newCombo_pos grid block tx ty combo hl,
    placeBlockAndProcess_junkCreated_pos grid block tx ty combo hl,
    placeBlockAndProcess_linesCleared grid block tx ty combo]
  simp only [placeBlockAndProcess]
  rw [if_pos hl]
  by_cases hj : (allCoords.countP fun p =>
      makesJunk (clearedCells (stampGrid grid block tx ty) p.1 p.2)
        (affectedBlockIds (stampGrid grid block tx ty))
        (stampGrid grid block tx ty p.1 p.2)) = 0 <;>
    simp [hj]

theorem placeBlockAndProcess_zero (grid : Board) (block : BlockDefinition)
    (tx ty : Int) (combo : Nat)
    (hl : ¬ 0 < (fullRows (stampGrid grid block tx ty)).length
        + (fullCols (stampGrid grid block tx ty)).length) :
    placeBlockAndProcess grid block tx ty combo =
      { newGrid := stampGrid grid block tx ty,
        linesCleared := (fullRows (stampGrid grid block tx ty)).length
          + (fullCols (stampGrid grid block tx ty)).length,
        junkCreated := 0,
        points := block.cells.length * 10,
        newCombo := 0 } := by
  simp only [placeBlockAndProcess]
  rw [if_neg hl]

/-! ### C5: exactness of the placement predicate -/

/-- **C5.** For every board, shape with a non-empty offset list, and integer
anchor, `canPlaceBlock` returns `true` iff every offset cell of the shape
lands on an in-bounds coordinate (encoded by the existence of the grid
indices) whose cell has status `empty`.  The predicate is a pure Lean
function, so it has no side effects on the board. -/
theorem canPlaceBlock_iff (grid : Board) (block : BlockDefinition) (x y : Int)
    (hne : block.cells ≠ []) :
    canPlaceBlock grid block x y = true ↔
      ∀ c ∈ block.cells, ∃ fx fy : Fin GRID_SIZE,
        x + c.x = (fx.val : Int) ∧ y + c.y = (fy.val : Int) ∧
        (grid fy fx).status = .empty := by
  unfold canPlaceBlock
  rw [List.all_eq_true]
  constructor
  · intro h c hc
    have hcc := h c hc
    split at hcc
    · rename_i fx fy h1 h2
      exact ⟨fx, fy, idx?_eq_some.mp h1, idx?_eq_some.mp h2, by simpa using hcc⟩
    · exact absurd hcc (by simp)
  · intro h c hc
    obtain ⟨fx, fy, h1, h2, hs⟩ := h c hc
    rw [idx?_eq_some.mpr h1, idx?_eq_some.mpr h2]
    simpa using hs

/-- Witness for `canPlaceBlock_iff`: a single-dot shape on the empty board. -/
def dotBlock : BlockDefinition := { id := "d", cells := [⟨0, 0⟩], color := "#3b82f6" }

theorem canPlaceBlock_iff_witness :
    dotBlock.cells ≠ [] ∧
    (canPlaceBlock createEmptyGrid dotBlock 2 3 = true ↔
      ∀ c ∈ dotBlock.cells, ∃ fx fy : Fin GRID_SIZE,
        2 + c.x = (fx.val : Int) ∧ 3 + c.y = (fy.val : Int) ∧
        (createEmptyGrid fy fx).status = .empty) :=
  ⟨by decide, canPlaceBlock_iff createEmptyGrid dotBlock 2 3 (by decide)⟩

/-! ### C4: the line count -/

/-- **C4.** `linesCleared` is computed on the board after stamping as the
number of full rows plus the number of full columns, where a row index is in
`fullRows` iff every cell of that row has status ≠ `empty` (columns
likewise); the index lists have no duplicates, so their lengths are the
sizes of the index sets, and the board side is `GRID_SIZE = 6`. -/
theorem linesCleared_spec (grid : Board) (block : BlockDefinition)
    (x y : Int) (combo : Nat) (h : canPlaceBlock grid block x y = true) :
    GRID_SIZE = 6 ∧
    (placeBlockAndProcess grid block x y combo).linesCleared =
      (fullRows (stampGrid grid block x y)).length
        + (fullCols (stampGrid grid block x y)).length ∧
    (∀ r : Fin GRID_SIZE, r ∈ fullRows (stampGrid grid block x y) ↔
      ∀ cx, (stampGrid grid block x y r cx).status ≠ .empty) ∧
    (∀ cc : Fin GRID_SIZE, cc ∈ fullCols (stampGrid grid block x y) ↔
      ∀ ry, (stampGrid grid block x y ry cc).status ≠ .empty) ∧
    (fullRows (stampGrid grid block x y)).Nodup ∧
    (fullCols (stampGrid grid block x y)).Nodup :=
  ⟨rfl, placeBlockAndProcess_linesCleared grid block x y combo,
    fun _ => mem_fullRows, fun _ => mem_fullCols,
    (List.nodup_finRange GRID_SIZE).filter _,
    (List.nodup_finRange GRID_SIZE).filter _⟩

theorem linesCleared_spec_witness :
    canPlaceBlock createEmptyGrid dotBlock 0 0 = true ∧
    (GRID_SIZE = 6 ∧
    (placeBlockAndProcess createEmptyGrid dotBlock 0 0 0).linesCleared =
      (fullRows (stampGrid createEmptyGrid dotBlock 0 0)).length
        + (fullCols (stampGrid createEmptyGrid dotBlock 0 0)).length ∧
    (∀ r : Fin GRID_SIZE, r ∈ fullRows (stampGrid createEmptyGrid dotBlock 0 0) ↔
      ∀ cx, (stampGrid createEmptyGrid dotBlock 0 0 r cx).status ≠ .empty) ∧
    (∀ cc : Fin GRID_SIZE, cc ∈ fullCols (stampGrid createEmptyGrid dotBlock 0 0) ↔
      ∀ ry, (stampGrid createEmptyGrid dotBlock 0 0 ry cc).status ≠ .empty) ∧
    (fullRows (stampGrid createEmptyGrid dotBlock 0 0)).Nodup ∧
    (fullCols (stampGrid createEmptyGrid dotBlock 0 0)).Nodup) :=
  ⟨by decide, linesCleared_spec createEmptyGrid dotBlock 0 0 0 (by decide)⟩

/-! ### C3: scoring and combo -/

/-- **C3.** Scoring: with no line cleared the combo resets to `0` and the
points are `10 ×` the number of shape cells; with at least one line cleared
the combo becomes `comboIn + 1` exactly when no junk was created (else `0`),
and the points are `100 × linesCleared`, plus `50 × linesCleared` when no
junk was created, plus `(comboOut − 1) × 100` when `comboOut > 1`. -/
theorem scoring_spec (grid : Board) (block : BlockDefinition) (x y : Int)
    (comboIn : Nat) (h : canPlaceBlock grid block x y = true) :
    ((placeBlockAndProcess grid block x y comboIn).linesCleared = 0 →
      (placeBlockAndProcess grid block x y comboIn).newCombo = 0 ∧
      (placeBlockAndProcess grid block x y comboIn).points = 10 * block.cells.length) ∧
    (0 < (placeBlockAndProcess grid block x y comboIn).linesCleared →
      ((placeBlockAndProcess grid block x y comboIn).newCombo =
        if (placeBlockAndProcess grid block x y comboIn).junkCreated = 0
        then comboIn + 1 else 0) ∧
      (placeBlockAndProcess grid block x y comboIn).points =
        100 * (placeBlockAndProcess grid block x y comboIn).linesCleared
        + (if (placeBlockAndProcess grid block x y comboIn).junkCreated = 0
            then 50 * (placeBlockAndProcess grid block x y comboIn).linesCleared else 0)
        + (if 1 < (placeBlockAndProcess grid block x y comboIn).newCombo
            then ((placeBlockAndProcess grid block x y comboIn).newCombo - 1) * 100
            else 0)) := by
  by_cases hl : 0 < (fullRows (stampGrid grid block x y)).length
      + (fullCols (stampGrid grid block x y)).length
  · constructor
    · intro h0
      rw [placeBlockAndProcess_linesCleared] at h0
      omega
    · intro _
      refine ⟨placeBlockAndProcess_newCombo_pos grid block x y comboIn hl, ?_⟩
      rw [placeBlockAndProcess_points_pos grid block x y comboIn hl]
      by_cases hj : (placeBlockAndProcess grid block x y comboIn).junkCreated = 0 <;>
        by_cases hc : 1 < (placeBlockAndProcess grid block x y comboIn).newCombo <;>
        simp only [hj, hc, if_true, if_false] <;>
        omega
  · rw [placeBlockAndProcess_zero grid block x y comboIn hl]
    constructor
    · intro _
      exact ⟨rfl, by simpa using Nat.mul_comm block.cells.length 10⟩
    · intro h0
      simp only at h0
      omega

theorem scoring_spec_witness :
    canPlaceBlock createEmptyGrid dotBlock 0 0 = true ∧
    (((placeBlockAndProcess createEmptyGrid dotBlock 0 0 7).linesCleared = 0 →
      (placeBlockAndProcess createEmptyGrid dotBlock 0 0 7).newCombo = 0 ∧
      (placeBlockAndProcess createEmptyGrid dotBlock 0 0 7).points = 10 * dotBlock.cells.length) ∧
    (0 < (placeBlockAndProcess createEmptyGrid dotBlock 0 0 7).linesCleared →
      ((placeBlockAndProcess createEmptyGrid dotBlock 0 0 7).newCombo =
        if (placeBlockAndProcess createEmptyGrid dotBlock 0 0 7).junkCreated = 0
        then 7 + 1 else 0) ∧
      (placeBlockAndProcess createEmptyGrid dotBlock 0 0 7).points =
        100 * (placeBlockAndProcess createEmptyGrid dotBlock 0 0 7).linesCleared
        + (if (placeBlockAndProcess createEmptyGrid dotBlock 0 0 7).junkCreated = 0
            then 50 * (placeBlockAndProcess createEmptyGrid dotBlock 0 0 7).linesCleared else 0)
        + (if 1 < (placeBlockAndProcess createEmptyGrid dotBlock 0 0 7).newCombo
            then ((placeBlockAndProcess createEmptyGrid dotBlock 0 0 7).newCombo - 1) * 100
            else 0))) :=
  ⟨by decide, scoring_spec createEmptyGrid dotBlock 0 0 7 (by decide)⟩

/-! ### C2: junk cells are never touched by the clear phase -/

/-- **C2.** Every cell that has status `junk` on the board after stamping is
returned unchanged by `placeBlockAndProcess` — in particular it still has
status `junk`, even when it lies inside a full (cleared) row or column, so a
line that was full thanks to junk stays non-empty at those cells. -/
theorem junk_unchanged (grid : Board) (block : BlockDefinition) (x y : Int)
    (comboIn : Nat) (h : canPlaceBlock grid block x y = true) :
    ∀ fy fx, (stampGrid grid block x y fy fx).status = .junk →
      (placeBlockAndProcess grid block x y comboIn).newGrid fy fx =
        stampGrid grid block x y fy fx ∧
      ((placeBlockAndProcess grid block x y comboIn).newGrid fy fx).status = .junk := by
  intro fy fx hj
  by_cases hl : 0 < (fullRows (stampGrid grid block x y)).length
      + (fullCols (stampGrid grid block x y)).length
  · rw [placeBlockAndProcess_pos grid block x y comboIn hl]
    constructor
    · simp [processCell, hj]
    · simp [processCell, hj]
  · rw [placeBlockAndProcess_zero grid block x y comboIn hl]
    exact ⟨rfl, hj⟩

/-- Witness board for `junk_unchanged`: one junk cell at `(3, 3)`, the rest
empty. -/
def junkBoard : Board := fun y x =>
  if y.val = 3 ∧ x.val = 3 then { id := "c", status := .junk, color := some JUNK_COLOR }
  else { id := "c", status := .empty }

theorem junk_unchanged_witness :
    canPlaceBlock junkBoard dotBlock 0 0 = true ∧
    (∀ fy fx, (stampGrid junkBoard dotBlock 0 0 fy fx).status = .junk →
      (placeBlockAndProcess junkBoard dotBlock 0 0 5).newGrid fy fx =
        stampGrid junkBoard dotBlock 0 0 fy fx ∧
      ((placeBlockAndProcess junkBoard dotBlock 0 0 5).newGrid fy fx).status = .junk) :=
  ⟨by decide, junk_unchanged junkBoard dotBlock 0 0 5 (by decide)⟩

/-! ### C10: the stamp is the only change when nothing clears -/

/-- **C10.** When no line clears, the result board agrees with the input
board on every coordinate not stamped by the shape, and each stamped
coordinate holds the input cell with status `filled`, the shape's color and
the shape's id.  (`placeBlockAndProcess` is a pure Lean function returning a
new `Board` value, so the board argument is never mutated.) -/
theorem placement_frame (grid : Board) (block : BlockDefinition) (x y : Int)
    (comboIn : Nat) (h : canPlaceBlock grid block x y = true)
    (h0 : (placeBlockAndProcess grid block x y comboIn).linesCleared = 0) :
    (∀ fy fx, ¬ StampedAt block x y fy fx →
      (placeBlockAndProcess grid block x y comboIn).newGrid fy fx = grid fy fx) ∧
    (∀ fy fx, StampedAt block x y fy fx →
      (placeBlockAndProcess grid block x y comboIn).newGrid fy fx =
        { (grid fy fx) with
            status := .filled
            color := some block.color
            blockId := some block.id }) := by
  rw [placeBlockAndProcess_linesCleared] at h0
  rw [placeBlockAndProcess_zero grid block x y comboIn (by omega)]
  constructor
  · intro fy fx hn
    simp only [stampGrid_apply, if_neg hn]
  · intro fy fx hs
    simp only [stampGrid_apply, if_pos hs]
    rfl

theorem placement_frame_witness :
    canPlaceBlock createEmptyGrid dotBlock 1 2 = true ∧
    (placeBlockAndProcess createEmptyGrid dotBlock 1 2 0).linesCleared = 0 ∧
    ((∀ fy fx, ¬ StampedAt dotBlock 1 2 fy fx →
      (placeBlockAndProcess createEmptyGrid dotBlock 1 2 0).newGrid fy fx =
        createEmptyGrid fy fx) ∧
    (∀ fy fx, StampedAt dotBlock 1 2 fy fx →
      (placeBlockAndProcess createEmptyGrid dotBlock 1 2 0).newGrid fy fx =
        { (createEmptyGrid fy fx) with
            status := .filled
            color := some dotBlock.color
            blockId := some dotBlock.id })) :=
  ⟨by decide, by decide, placement_frame createEmptyGrid dotBlock 1 2 0 (by decide) (by decide)⟩

/-! ### C1: the clear-and-leftover transformation -/

theorem ownerInv_stamp {grid : Board} (block : BlockDefinition) (tx ty : Int)
    (hwf : OwnerInv grid) : OwnerInv (stampGrid grid block tx ty) := by
  intro fy fx
  rw [stampGrid_apply]
  split
  · simp [stampCell]
  · exact hwf fy fx

theorem countP_allCoords_eq (P : Fin GRID_SIZE × Fin GRID_SIZE → Prop)
    [DecidablePred P] :
    (allCoords.countP fun p => decide (P p)) = (Finset.univ.filter P).card := by
  have hnd : allCoords.Nodup := by decide
  have hall : ∀ q : Fin GRID_SIZE × Fin GRID_SIZE, q ∈ allCoords := by decide
  rw [List.countP_eq_length_filter]
  have hfin : (allCoords.filter fun p => decide (P p)).toFinset = Finset.univ.filter P := by
    ext q
    simp [List.mem_filter, hall q]
  rw [← hfin, List.toFinset_card_of_nodup (hnd.filter _)]

theorem makesJunk_iff {g : Board} (hwf : OwnerInv g)
    (fy fx : Fin GRID_SIZE) :
    makesJunk (clearedCells g fy fx) (affectedBlockIds g) (g fy fx) = true ↔
      ((g fy fx).status = .filled ∧ ¬ SpecCleared g fy fx ∧
        ∃ bid, (g fy fx).blockId = some bid ∧ SpecAffected g bid) := by
  unfold makesJunk
  rcases hb : (g fy fx).blockId with _ | bid
  · simp [hb]
  · simp only [hb, Bool.and_eq_true, decide_eq_true_eq, Bool.not_eq_true',
      Option.some.injEq]
    rw [and_assoc]
    constructor
    · rintro ⟨h1, h2, h3⟩
      refine ⟨h1, ?_, bid, rfl, (affectedBlockIds_iff hwf bid).mp h3⟩
      intro hcl
      rw [clearedCells_iff.mpr hcl] at h2
      cases h2
    · rintro ⟨h1, h2, bid', hbid, haff⟩
      cases hbid
      refine ⟨h1, ?_, (affectedBlockIds_iff hwf bid).mpr haff⟩
      rw [Bool.eq_false_iff]
      intro hcc
      exact h2 (clearedCells_iff.mp hcc)

/-- **C1.** When lines clear, the result of `placeBlockAndProcess` relates
to the stamped board as the spec describes: a `filled` cell of the cleared
cell set becomes `empty` with its owner (and color) cleared; a `filled` cell
outside the cleared cell set whose owner belongs to the affected-owner set —
the distinct owner ids present on `filled` cells of the cleared cell set —
becomes `junk` with owner cleared and the fixed junk color; every other cell
is unchanged; and `junkCreated` is exactly the number of cells converted to
junk.  Boards are assumed to satisfy the data model's owner invariant
(`ownerId` present iff `filled`, §3 of the spec). -/
theorem clear_and_leftover_spec (grid : Board) (block : BlockDefinition)
    (x y : Int) (comboIn : Nat)
    (hwf : OwnerInv grid)
    (h : canPlaceBlock grid block x y = true)
    (hl : 0 < (placeBlockAndProcess grid block x y comboIn).linesCleared) :
    (∀ fy fx, (stampGrid grid block x y fy fx).status = .filled →
        SpecCleared (stampGrid grid block x y) fy fx →
        (placeBlockAndProcess grid block x y comboIn).newGrid fy fx =
          { (stampGrid grid block x y fy fx) with
              status := .empty
              color := none
              blockId := none }) ∧
    (∀ fy fx bid, (stampGrid grid block x y fy fx).status = .filled →
        ¬ SpecCleared (stampGrid grid block x y) fy fx →
        (stampGrid grid block x y fy fx).blockId = some bid →
        SpecAffected (stampGrid grid block x y) bid →
        (placeBlockAndProcess grid block x y comboIn).newGrid fy fx =
          { (stampGrid grid block x y fy fx) with
              status := .junk
              color := some JUNK_COLOR
              blockId := none }) ∧
    (∀ fy fx, (stampGrid grid block x y fy fx).status = .filled →
        ¬ SpecCleared (stampGrid grid block x y) fy fx →
        ¬ (∃ bid, (stampGrid grid block x y fy fx).blockId = some bid ∧
            SpecAffected (stampGrid grid block x y) bid) →
        (placeBlockAndProcess grid block x y comboIn).newGrid fy fx =
          stampGrid grid block x y fy fx) ∧
    (∀ fy fx, (stampGrid grid block x y fy fx).status ≠ .filled →
        (placeBlockAndProcess grid block x y comboIn).newGrid fy fx =
          stampGrid grid block x y fy fx) ∧
    (placeBlockAndProcess grid block x y comboIn).junkCreated =
      (Finset.univ.filter fun p : Fin GRID_SIZE × Fin GRID_SIZE =>
        (stampGrid grid block x y p.1 p.2).status = .filled ∧
        ¬ SpecCleared (stampGrid grid block x y) p.1 p.2 ∧
        ∃ bid, (stampGrid grid block x y p.1 p.2).blockId = some bid ∧
          SpecAffected (stampGrid grid block x y) bid).card := by
  rw [placeBlockAndProcess_linesCleared] at hl
  have hwf' : OwnerInv (stampGrid grid block x y) := ownerInv_stamp block x y hwf
  have hng := placeBlockAndProcess_newGrid_pos grid block x y comboIn hl
  refine ⟨?_, ?_, ?_, ?_, ?_⟩
  · intro fy fx hf hcl
    have hc : clearedCells (stampGrid grid block x y) fy fx = true :=
      clearedCells_iff.mpr hcl
    rw [hng]
    simp [processCell, hf, hc]
  · intro fy fx bid hf hncl hb haff
    have hcf : clearedCells (stampGrid grid block x y) fy fx = false := by
      rw [Bool.eq_false_iff]
      intro hcc
      exact hncl (clearedCells_iff.mp hcc)
    have ha : affectedBlockIds (stampGrid grid block x y) bid = true :=
      (affectedBlockIds_iff hwf' bid).mpr haff
    rw [hng]
    simp [processCell, hf, hcf, hb, ha]
  · intro fy fx hf hncl hnaff
    have hcf : clearedCells (stampGrid grid block x y) fy fx = false := by
      rw [Bool.eq_false_iff]
      intro hcc
      exact hncl (clearedCells_iff.mp hcc)
    rw [hng]
    rcases hb : (stampGrid grid block x y fy fx).blockId with _ | bid
    · simp [processCell, hf, hcf, hb]
    · have ha : affectedBlockIds (stampGrid grid block x y) bid = false := by
        rw [Bool.eq_false_iff]
        intro hcc
        exact hnaff ⟨bid, hb, (affectedBlockIds_iff hwf' bid).mp hcc⟩
      simp [processCell, hf, hcf, hb, ha]
  · intro fy fx hf
    rw [hng]
    rcases hst : (stampGrid grid block x y fy fx).status with _ | _ | _
    · simp [processCell, hst]
    · exact absurd hst hf
    · simp [processCell, hst]
  · rw [placeBlockAndProcess_junkCreated_pos grid block x y comboIn hl,
      ← countP_allCoords_eq]
    apply List.countP_congr
    intro p _
    rw [decide_eq_true_eq]
    exact makesJunk_iff hwf' p.1 p.2

/-- Board with cells `(0,0)`–`(4,0)` filled (owner `"a"`) and every other
cell empty. -/
def rowBoard : Board := fun y x =>
  if y.val = 0 ∧ x.val ≤ 4 then
    { id := "c", status := .filled, color := some "#ef4444", blockId := some "a" }
  else { id := "c", status := .empty }

theorem clear_and_leftover_spec_witness :
    OwnerInv rowBoard ∧
    canPlaceBlock rowBoard dotBlock 5 0 = true ∧
    0 < (placeBlockAndProcess rowBoard dotBlock 5 0 0).linesCleared ∧
    ((∀ fy fx, (stampGrid rowBoard dotBlock 5 0 fy fx).status = .filled →
        SpecCleared (stampGrid rowBoard dotBlock 5 0) fy fx →
        (placeBlockAndProcess rowBoard dotBlock 5 0 0).newGrid fy fx =
          { (stampGrid rowBoard dotBlock 5 0 fy fx) with
              status := .empty
              color := none
              blockId := none }) ∧
    (∀ fy fx bid, (stampGrid rowBoard dotBlock 5 0 fy fx).status = .filled →
        ¬ SpecCleared (stampGrid rowBoard dotBlock 5 0) fy fx →
        (stampGrid rowBoard dotBlock 5 0 fy fx).blockId = some bid →
        SpecAffected (stampGrid rowBoard dotBlock 5 0) bid →
        (placeBlockAndProcess rowBoard dotBlock 5 0 0).newGrid fy fx =
          { (stampGrid rowBoard dotBlock 5 0 fy fx) with
              status := .junk
              color := some JUNK_COLOR
              blockId := none }) ∧
    (∀ fy fx, (stampGrid rowBoard dotBlock 5 0 fy fx).status = .filled →
        ¬ SpecCleared (stampGrid rowBoard dotBlock 5 0) fy fx →
        ¬ (∃ bid, (stampGrid rowBoard dotBlock 5 0 fy fx).blockId = some bid ∧
            SpecAffected (stampGrid rowBoard dotBlock 5 0) bid) →
        (placeBlockAndProcess rowBoard dotBlock 5 0 0).newGrid fy fx =
          stampGrid rowBoard dotBlock 5 0 fy fx) ∧
    (∀ fy fx, (stampGrid rowBoard dotBlock 5 0 fy fx).status ≠ .filled →
        (placeBlockAndProcess rowBoard dotBlock 5 0 0).newGrid fy fx =
          stampGrid rowBoard dotBlock 5 0 fy fx) ∧
    (placeBlockAndProcess rowBoard dotBlock 5 0 0).junkCreated =
      (Finset.univ.filter fun p : Fin GRID_SIZE × Fin GRID_SIZE =>
        (stampGrid rowBoard dotBlock 5 0 p.1 p.2).status = .filled ∧
        ¬ SpecCleared (stampGrid rowBoard dotBlock 5 0) p.1 p.2 ∧
        ∃ bid, (stampGrid rowBoard dotBlock 5 0 p.1 p.2).blockId = some bid ∧
          SpecAffected (stampGrid rowBoard dotBlock 5 0) bid).card) :=
  ⟨by decide, by decide, by decide,
    clear_and_leftover_spec rowBoard dotBlock 5 0 0 (by decide) (by decide) (by decide)⟩

/-! ### C8: reachable boards satisfy the owner invariant -/

/-- Boards reachable from the empty grid by legal placements: the caller of
`placeBlockAndProcess` always checks `canPlaceBlock` first (`App.tsx` drops
a block only after the ghost position validates). -/
inductive Reachable : Board → Prop where
  | empty : Reachable createEmptyGrid
  | place (g : Board) (block : BlockDefinition) (x y : Int) (combo : Nat) :
      Reachable g → canPlaceBlock g block x y = true →
      Reachable (placeBlockAndProcess g block x y combo).newGrid

theorem processCell_ownerInv (isCleared : Bool) (affected : String → Bool)
    (cell : CellData) (hc : (cell.blockId).isSome ↔ cell.status = .filled) :
    (((processCell isCleared affected cell).blockId)).isSome ↔
      (processCell isCleared affected cell).status = .filled := by
  unfold processCell
  split_ifs with h1 h2 h3
  · exact hc
  · simp
  · rcases hb : cell.blockId with _ | bid
    · rw [hb] at hc
      simp only [hb]
      simp at hc
      exact absurd h2 hc
    · simp only [hb]
      split_ifs with h4
      · simp
      · exact hc
  · exact hc

/-- **C8.** Every board reachable from `createEmptyGrid` by legal
`placeBlockAndProcess` calls has, at every cell, a block id present iff the
cell's status is `filled` — so junk and empty cells never carry an owner. -/
theorem reachable_ownerInv (g : Board) (h : Reachable g) : OwnerInv g := by
  induction h with
  | empty =>
    intro fy fx
    simp [createEmptyGrid]
  | place g block x y combo _hr hcan ih =>
    by_cases hl : 0 < (fullRows (stampGrid g block x y)).length
        + (fullCols (stampGrid g block x y)).length
    · rw [placeBlockAndProcess_newGrid_pos g block x y combo hl]
      intro fy fx
      exact processCell_ownerInv _ _ _ (ownerInv_stamp block x y ih fy fx)
    · rw [placeBlockAndProcess_zero g block x y combo hl]
      exact ownerInv_stamp block x y ih

theorem reachable_ownerInv_witness :
    OwnerInv (placeBlockAndProcess createEmptyGrid dotBlock 2 2 0).newGrid :=
  reachable_ownerInv _
    (Reachable.place createEmptyGrid dotBlock 2 2 0 Reachable.empty (by decide))

/-! ### C7: the move availability oracle -/

/-- **C7.** `canPlaceAny` is `true` on an empty hand; otherwise it is `true`
iff some shape of the hand, in one of its four rotations (the original
orientation is `i = 0`), fits at some anchor `(x, y)` with
`0 ≤ x, y < GRID_SIZE`. -/
theorem canPlaceAny_iff (grid : Board) (hand : List BlockDefinition) :
    canPlaceAny grid hand = true ↔
      (hand = [] ∨ ∃ block ∈ hand, ∃ i < 4, ∃ xa < GRID_SIZE, ∃ ya < GRID_SIZE,
        canPlaceBlock grid (rotateBlockDefinition^[i] block)
          (Int.ofNat xa) (Int.ofNat ya) = true) := by
  unfold canPlaceAny canPlaceInAnyOrientation
  by_cases hh : hand.isEmpty = true
  · rw [if_pos hh]
    simp [List.isEmpty_iff.mp hh]
  · rw [if_neg hh]
    have hne : hand ≠ [] := by
      intro hcontra
      exact hh (by simp [hcontra])
    simp only [List.any_eq_true, List.mem_range]
    constructor
    · rintro ⟨block, hmem, i, hi, ya, hy, xa, hx, hcan⟩
      exact Or.inr ⟨block, hmem, i, hi, xa, hx, ya, hy, hcan⟩
    · rintro (hnil | ⟨block, hmem, i, hi, xa, hx, ya, hy, hcan⟩)
      · exact absurd hnil hne
      · exact ⟨block, hmem, i, hi, ya, hy, xa, hx, hcan⟩

/-! ### C9: the clean row-clear scenario -/

/-- **C9 counterexample.** The claim asserts `points = 150` for *every*
`comboIn ≥ 0`, but on the scenario board with `comboIn = 1` the code pays
the streak bonus of `(comboOut − 1) × 100`: the placement yields
`comboOut = 2` and `points = 250 ≠ 150`. -/
theorem scenario_points_counterexample :
    (∀ fx : Fin GRID_SIZE, fx.val ≤ 4 → (rowBoard 0 fx).status = .filled) ∧
    (∀ fy fx : Fin GRID_SIZE, ¬(fy.val = 0 ∧ fx.val ≤ 4) →
      (rowBoard fy fx).status = .empty) ∧
    canPlaceBlock rowBoard dotBlock 5 0 = true ∧
    (placeBlockAndProcess rowBoard dotBlock 5 0 1).linesCleared = 1 ∧
    (placeBlockAndProcess rowBoard dotBlock 5 0 1).junkCreated = 0 ∧
    (placeBlockAndProcess rowBoard dotBlock 5 0 1).newCombo = 1 + 1 ∧
    (placeBlockAndProcess rowBoard dotBlock 5 0 1).points = 250 ∧
    (placeBlockAndProcess rowBoard dotBlock 5 0 1).points ≠ 150 := by
  decide

/-- A single-dot shape (the `{ cells: [{x: 0, y: 0}] }` template of the
shape catalog) with the given placement id and color. -/
def dotShape (bid color : String) : BlockDefinition :=
  { id := bid, cells := [⟨0, 0⟩], color := color }

theorem stampedAt_dotShape (bid color : String) (fy fx : Fin GRID_SIZE) :
    StampedAt (dotShape bid color) 5 0 fy fx ↔ (fy.val = 0 ∧ fx.val = 5) := by
  unfold StampedAt dotShape
  simp only [List.mem_singleton]
  constructor
  · rintro ⟨c, rfl, h1, h2⟩
    simp only at h1 h2
    constructor <;> omega
  · rintro ⟨h0, h5⟩
    refine ⟨⟨0, 0⟩, rfl, ?_, ?_⟩
    · show (5 : Int) + 0 = (fx.val : Int)
      omega
    · show (0 : Int) + 0 = (fy.val : Int)
      omega

/-- **C9 (amended).** On a board whose row 0 is filled at columns 0–4 with
every other cell empty, placing a single-dot shape at `(5, 0)` clears one
line, creates no junk, and returns `comboOut = comboIn + 1` — but the
points are `150` plus the streak bonus `comboIn × 100` (so exactly `150`
only when `comboIn = 0`). -/
theorem row_clear_scenario (g : Board) (comboIn : Nat) (bid color : String)
    (hfill : ∀ fx : Fin GRID_SIZE, fx.val ≤ 4 → (g 0 fx).status = .filled)
    (hempty : ∀ fy fx : Fin GRID_SIZE, ¬(fy.val = 0 ∧ fx.val ≤ 4) →
      (g fy fx).status = .empty) :
    (placeBlockAndProcess g (dotShape bid color) 5 0 comboIn).linesCleared = 1 ∧
    (placeBlockAndProcess g (dotShape bid color) 5 0 comboIn).junkCreated = 0 ∧
    (placeBlockAndProcess g (dotShape bid color) 5 0 comboIn).newCombo = comboIn + 1 ∧
    (placeBlockAndProcess g (dotShape bid color) 5 0 comboIn).points
      = 150 + comboIn * 100 := by
  have hstamp_ne : ∀ fy fx : Fin GRID_SIZE, ¬(fy.val = 0 ∧ fx.val = 5) →
      stampGrid g (dotShape bid color) 5 0 fy fx = g fy fx := by
    intro fy fx hn
    rw [stampGrid_apply, if_neg]
    intro hs
    exact hn ((stampedAt_dotShape bid color fy fx).mp hs)
  have hstamp_eq : ∀ fy fx : Fin GRID_SIZE, fy.val = 0 → fx.val = 5 →
      stampGrid g (dotShape bid color) 5 0 fy fx =
        stampCell (dotShape bid color) (g fy fx) := by
    intro fy fx h0 h5
    rw [stampGrid_apply,
      if_pos ((stampedAt_dotShape bid color fy fx).mpr ⟨h0, h5⟩)]
  have hrow0 : ∀ fx : Fin GRID_SIZE,
      (stampGrid g (dotShape bid color) 5 0 0 fx).status ≠ .empty := by
    intro fx
    by_cases h4 : fx.val ≤ 4
    · rw [hstamp_ne 0 fx (by omega)]
      rw [hfill fx h4]
      simp
    · have h6 : fx.val < 6 := fx.isLt
      rw [hstamp_eq 0 fx rfl (by omega)]
      simp [stampCell]
  have hrowy : ∀ fy : Fin GRID_SIZE, fy.val ≠ 0 →
      (stampGrid g (dotShape bid color) 5 0 fy 0).status = .empty := by
    intro fy hy
    rw [hstamp_ne fy 0 (by omega)]
    exact hempty fy 0 (by omega)
  have hrow_mem : ∀ r : Fin GRID_SIZE,
      r ∈ fullRows (stampGrid g (dotShape bid color) 5 0) ↔ r = 0 := by
    intro r
    rw [mem_fullRows]
    constructor
    · intro hall
      by_contra hr
      have hy : r.val ≠ 0 := by
        intro hv
        exact hr (Fin.ext hv)
      exact hall 0 (hrowy r hy)
    · rintro rfl
      exact hrow0
  have hcol_mem : ∀ c : Fin GRID_SIZE,
      c ∉ fullCols (stampGrid g (dotShape bid color) 5 0) := by
    intro c hc
    have := mem_fullCols.mp hc 1
    have h1 : stampGrid g (dotShape bid color) 5 0 1 c = g 1 c :=
      hstamp_ne 1 c (by simp)
    rw [h1] at this
    exact this (hempty 1 c (by simp))
  have hcols : fullCols (stampGrid g (dotShape bid color) 5 0) = [] :=
    List.eq_nil_iff_forall_not_mem.mpr hcol_mem
  have hrows_len : (fullRows (stampGrid g (dotShape bid color) 5 0)).length = 1 := by
    have hnd : (fullRows (stampGrid g (dotShape bid color) 5 0)).Nodup :=
      (List.nodup_finRange GRID_SIZE).filter _
    have hfs : (fullRows (stampGrid g (dotShape bid color) 5 0)).toFinset =
        ({0} : Finset (Fin GRID_SIZE)) := by
      ext r
      simp [List.mem_toFinset, hrow_mem]
    have hcard := List.toFinset_card_of_nodup hnd
    rw [hfs] at hcard
    simpa using hcard.symm
  have hl : 0 < (fullRows (stampGrid g (dotShape bid color) 5 0)).length
      + (fullCols (stampGrid g (dotShape bid color) 5 0)).length := by
    rw [hrows_len, hcols]
    simp
  have hlines : (placeBlockAndProcess g (dotShape bid color) 5 0 comboIn).linesCleared = 1 := by
    rw [placeBlockAndProcess_linesCleared, hrows_len, hcols]
    simp
  have hjunk : (placeBlockAndProcess g (dotShape bid color) 5 0 comboIn).junkCreated = 0 := by
    rw [placeBlockAndProcess_junkCreated_pos g (dotShape bid color) 5 0 comboIn hl]
    rw [List.countP_eq_zero]
    intro p _
    by_cases hp : p.1.val = 0
    · have hcl : clearedCells (stampGrid g (dotShape bid color) 5 0) p.1 p.2 = true := by
        apply clearedCells_iff.mpr
        left
        have hp1 : p.1 = 0 := Fin.ext hp
        rw [hp1]
        exact hrow0
      simp [makesJunk, hcl]
    · have hst : (stampGrid g (dotShape bid color) 5 0 p.1 p.2).status = .empty := by
        rw [hstamp_ne p.1 p.2 (by omega)]
        exact hempty p.1 p.2 (by omega)
      simp [makesJunk, hst]
  have hcombo : (placeBlockAndProcess g (dotShape bid color) 5 0 comboIn).newCombo
      = comboIn + 1 := by
    rw [placeBlockAndProcess_newCombo_pos g (dotShape bid color) 5 0 comboIn hl, hjunk]
    simp
  refine ⟨hlines, hjunk, hcombo, ?_⟩
  have hpts := placeBlockAndProcess_points_pos g (dotShape bid color) 5 0 comboIn hl
  rw [hlines, hjunk, hcombo] at hpts
  rw [hpts]
  rcases Nat.eq_zero_or_pos comboIn with hc0 | hcpos
  · subst hc0
    norm_num
  · have hc : 1 < comboIn + 1 := by omega
    rw [if_pos rfl, if_pos hc]
    omega

theorem row_clear_scenario_witness :
    (∀ fx : Fin GRID_SIZE, fx.val ≤ 4 → (rowBoard 0 fx).status = .filled) ∧
    (∀ fy fx : Fin GRID_SIZE, ¬(fy.val = 0 ∧ fx.val ≤ 4) →
      (rowBoard fy fx).status = .empty) ∧
    ((placeBlockAndProcess rowBoard (dotShape "d2" "#22c55e") 5 0 0).linesCleared = 1 ∧
    (placeBlockAndProcess rowBoard (dotShape "d2" "#22c55e") 5 0 0).junkCreated = 0 ∧
    (placeBlockAndProcess rowBoard (dotShape "d2" "#22c55e") 5 0 0).newCombo = 0 + 1 ∧
    (placeBlockAndProcess rowBoard (dotShape "d2" "#22c55e") 5 0 0).points
      = 150 + 0 * 100) :=
  ⟨by decide, by decide,
    row_clear_scenario rowBoard 0 "d2" "#22c55e" (by decide) (by decide)⟩

/-! ### C6: rotation -/

/-- The 90° clockwise offset transform `(x, y) ↦ (−y, x)`. -/
def rotCoord (c : Coordinate) : Coordinate := ⟨-c.y, c.x⟩

/-- Translation of an offset by `t`. -/
def trCoord (t c : Coordinate) : Coordinate := ⟨c.x + t.x, c.y + t.y⟩

theorem foldl_min_le_init (as : List Int) (a : Int) : as.foldl min a ≤ a := by
  induction as generalizing a with
  | nil => simp
  | cons b bs ih => exact le_trans (ih (min a b)) (min_le_left a b)

theorem foldl_min_le_mem (as : List Int) (a x : Int) (hx : x ∈ as) :
    as.foldl min a ≤ x := by
  induction as generalizing a with
  | nil => cases hx
  | cons b bs ih =>
    rcases List.mem_cons.mp hx with rfl | hx'
    · exact le_trans (foldl_min_le_init bs (min a x)) (min_le_right a x)
    · exact ih (min a b) hx'

theorem foldl_min_mem (as : List Int) (a : Int) :
    as.foldl min a = a ∨ as.foldl min a ∈ as := by
  induction as generalizing a with
  | nil => exact Or.inl rfl
  | cons b bs ih =>
    rcases ih (min a b) with h | h
    · rcases min_choice a b with hm | hm
      · exact Or.inl (by rw [List.foldl_cons, h, hm])
      · exact Or.inr (by rw [List.foldl_cons, h, hm]; exact List.mem_cons_self b bs)
    · exact Or.inr (List.mem_cons_of_mem b h)

theorem listMin_mem {l : List Int} (h : l ≠ []) : listMin l ∈ l := by
  rcases l with _ | ⟨a, as⟩
  · exact absurd rfl h
  · rcases foldl_min_mem as a with hm | hm
    · rw [show listMin (a :: as) = as.foldl min a from rfl, hm]
      exact List.mem_cons_self a as
    · exact List.mem_cons_of_mem a hm

theorem listMin_le {l : List Int} {x : Int} (hx : x ∈ l) : listMin l ≤ x := by
  rcases l with _ | ⟨a, as⟩
  · cases hx
  · rcases List.mem_cons.mp hx with rfl | hx'
    · exact foldl_min_le_init as x
    · exact foldl_min_le_mem as a x hx'

theorem listMin_eq_of_perm {l l' : List Int} (hp : l.Perm l') :
    listMin l = listMin l' := by
  rcases l with _ | ⟨a, as⟩
  · rw [← hp.nil_eq]
  · have hne : (a :: as : List Int) ≠ [] := by simp
    have hne' : l' ≠ [] := by
      intro hcontra
      subst hcontra
      exact absurd hp.symm.nil_eq (by simp)
    exact le_antisymm
      (listMin_le (hp.mem_iff.mpr (listMin_mem hne')))
      (listMin_le (hp.symm.mem_iff.mpr (listMin_mem hne)))

theorem listMin_map_add (l : List Int) (t : Int) (h : l ≠ []) :
    listMin (l.map (· + t)) = listMin l + t := by
  rcases l with _ | ⟨a, as⟩
  · exact absurd rfl h
  · show (as.map (· + t)).foldl min (a + t) = as.foldl min a + t
    clear h
    induction as generalizing a with
    | nil => rfl
    | cons b bs ih =>
      show (bs.map (· + t)).foldl min (min (a + t) (b + t)) =
        bs.foldl min (min a b) + t
      rw [← ih (min a b)]
      congr 1
      exact min_add_add_right a b t

/-- The cells of a rotated block, written with the named transform and the
named translation by the negated minima. -/
theorem rotateBlockDefinition_cells (block : BlockDefinition) :
    (rotateBlockDefinition block).cells =
      ((block.cells.map rotCoord).map
        (trCoord
          ⟨-(listMin ((block.cells.map rotCoord).map (·.x))),
            -(listMin ((block.cells.map rotCoord).map (·.y)))⟩)).mergeSort
        cellLE := rfl

theorem rotateBlockDefinition_id (block : BlockDefinition) :
    (rotateBlockDefinition block).id = block.id := rfl

theorem rotateBlockDefinition_color (block : BlockDefinition) :
    (rotateBlockDefinition block).color = block.color := rfl

theorem rotate_cells_perm (block : BlockDefinition) :
    ∃ t : Coordinate, (rotateBlockDefinition block).cells.Perm
      (block.cells.map fun c => trCoord t (rotCoord c)) := by
  refine ⟨⟨-(listMin ((block.cells.map rotCoord).map (·.x))),
           -(listMin ((block.cells.map rotCoord).map (·.y)))⟩, ?_⟩
  rw [rotateBlockDefinition_cells]
  refine (List.mergeSort_perm _ _).trans ?_
  rw [List.map_map]
  exact List.Perm.refl _

theorem rotate_cells_length (block : BlockDefinition) :
    (rotateBlockDefinition block).cells.length = block.cells.length := by
  obtain ⟨t, hp⟩ := rotate_cells_perm block
  rw [hp.length_eq, List.length_map]

theorem rotate_minX (block : BlockDefinition) (h : block.cells ≠ []) :
    listMin ((rotateBlockDefinition block).cells.map (·.x)) = 0 := by
  have hR : (block.cells.map rotCoord) ≠ [] := by
    intro hc
    exact h (List.map_eq_nil_iff.mp hc)
  have hRx : ((block.cells.map rotCoord).map (·.x)) ≠ [] := by
    intro hc
    exact hR (List.map_eq_nil_iff.mp hc)
  rw [rotateBlockDefinition_cells]
  have hperm : (((block.cells.map rotCoord).map
        (trCoord ⟨-(listMin ((block.cells.map rotCoord).map (·.x))),
                  -(listMin ((block.cells.map rotCoord).map (·.y)))⟩)).mergeSort
        cellLE).Perm
      ((block.cells.map rotCoord).map
        (trCoord ⟨-(listMin ((block.cells.map rotCoord).map (·.x))),
                  -(listMin ((block.cells.map rotCoord).map (·.y)))⟩)) :=
    List.mergeSort_perm _ _
  rw [listMin_eq_of_perm (hperm.map (·.x))]
  rw [List.map_map]
  have hmx : ((·.x) ∘ trCoord ⟨-(listMin ((block.cells.map rotCoord).map (·.x))),
      -(listMin ((block.cells.map rotCoord).map (·.y)))⟩) =
      fun c : Coordinate => c.x + -(listMin ((block.cells.map rotCoord).map (·.x))) := by
    funext c
    rfl
  rw [hmx, show (fun c : Coordinate =>
      c.x + -(listMin ((block.cells.map rotCoord).map (·.x)))) =
      ((· + -(listMin ((block.cells.map rotCoord).map (·.x)))) ∘ (·.x)) from rfl,
    ← List.map_map, listMin_map_add _ _ hRx]
  omega

theorem rotate_minY (block : BlockDefinition) (h : block.cells ≠ []) :
    listMin ((rotateBlockDefinition block).cells.map (·.y)) = 0 := by
  have hR : (block.cells.map rotCoord) ≠ [] := by
    intro hc
    exact h (List.map_eq_nil_iff.mp hc)
  have hRy : ((block.cells.map rotCoord).map (·.y)) ≠ [] := by
    intro hc
    exact hR (List.map_eq_nil_iff.mp hc)
  rw [rotateBlockDefinition_cells]
  have hperm : (((block.cells.map rotCoord).map
        (trCoord ⟨-(listMin ((block.cells.map rotCoord).map (·.x))),
                  -(listMin ((block.cells.map rotCoord).map (·.y)))⟩)).mergeSort
        cellLE).Perm
      ((block.cells.map rotCoord).map
        (trCoord ⟨-(listMin ((block.cells.map rotCoord).map (·.x))),
                  -(listMin ((block.cells.map rotCoord).map (·.y)))⟩)) :=
    List.mergeSort_perm _ _
  rw [listMin_eq_of_perm (hperm.map (·.y))]
  rw [List.map_map]
  have hmy : ((·.y) ∘ trCoord ⟨-(listMin ((block.cells.map rotCoord).map (·.x))),
      -(listMin ((block.cells.map rotCoord).map (·.y)))⟩) =
      fun c : Coordinate => c.y + -(listMin ((block.cells.map rotCoord).map (·.y))) := by
    funext c
    rfl
  rw [hmy, show (fun c : Coordinate =>
      c.y + -(listMin ((block.cells.map rotCoord).map (·.y)))) =
      ((· + -(listMin ((block.cells.map rotCoord).map (·.y)))) ∘ (·.y)) from rfl,
    ← List.map_map, listMin_map_add _ _ hRy]
  omega

theorem trCoord_rotCoord_four (t1 t2 t3 t4 c : Coordinate) :
    trCoord t4 (rotCoord (trCoord t3 (rotCoord (trCoord t2
        (rotCoord (trCoord t1 (rotCoord c))))))) =
      trCoord ⟨t4.x - t2.x + t1.y - t3.y, t4.y - t2.y + t3.x - t1.x⟩ c := by
  simp only [trCoord, rotCoord, Coordinate.mk.injEq]
  constructor <;> ring

theorem rotate_cells_ne_nil {block : BlockDefinition} (h : block.cells ≠ []) :
    (rotateBlockDefinition block).cells ≠ [] := by
  have hl := rotate_cells_length block
  intro hc
  rw [hc] at hl
  exact h (List.length_eq_zero.mp hl.symm)

theorem rotate_four_perm (block : BlockDefinition) :
    ∃ v : Coordinate, ((rotateBlockDefinition^[4]) block).cells.Perm
      (block.cells.map (trCoord v)) := by
  obtain ⟨t1, h1⟩ := rotate_cells_perm block
  obtain ⟨t2, h2⟩ := rotate_cells_perm (rotateBlockDefinition block)
  obtain ⟨t3, h3⟩ :=
    rotate_cells_perm (rotateBlockDefinition (rotateBlockDefinition block))
  obtain ⟨t4, h4⟩ :=
    rotate_cells_perm (rotateBlockDefinition (rotateBlockDefinition
      (rotateBlockDefinition block)))
  refine ⟨⟨t4.x - t2.x + t1.y - t3.y, t4.y - t2.y + t3.x - t1.x⟩, ?_⟩
  have e4 : (rotateBlockDefinition^[4]) block =
      rotateBlockDefinition (rotateBlockDefinition (rotateBlockDefinition
        (rotateBlockDefinition block))) := rfl
  rw [e4]
  have g2 : (rotateBlockDefinition (rotateBlockDefinition block)).cells.Perm
      (block.cells.map fun c => trCoord t2 (rotCoord (trCoord t1 (rotCoord c)))) := by
    refine h2.trans ((h1.map _).trans ?_)
    rw [List.map_map]
    exact List.Perm.refl _
  have g3 : (rotateBlockDefinition (rotateBlockDefinition
      (rotateBlockDefinition block))).cells.Perm
      (block.cells.map fun c =>
        trCoord t3 (rotCoord (trCoord t2 (rotCoord (trCoord t1 (rotCoord c)))))) := by
    refine h3.trans ((g2.map _).trans ?_)
    rw [List.map_map]
    exact List.Perm.refl _
  have g4 : (rotateBlockDefinition (rotateBlockDefinition (rotateBlockDefinition
      (rotateBlockDefinition block)))).cells.Perm
      (block.cells.map fun c =>
        trCoord t4 (rotCoord (trCoord t3 (rotCoord (trCoord t2
          (rotCoord (trCoord t1 (rotCoord c)))))))) := by
    refine h4.trans ((g3.map _).trans ?_)
    rw [List.map_map]
    exact List.Perm.refl _
  refine g4.trans ?_
  have hfun : (fun c => trCoord t4 (rotCoord (trCoord t3 (rotCoord (trCoord t2
      (rotCoord (trCoord t1 (rotCoord c)))))))) =
      trCoord ⟨t4.x - t2.x + t1.y - t3.y, t4.y - t2.y + t3.x - t1.x⟩ := by
    funext c
    exact trCoord_rotCoord_four t1 t2 t3 t4 c
  rw [hfun]

theorem rotate_four_toFinset (block : BlockDefinition)
    (hne : block.cells ≠ [])
    (hnx : listMin (block.cells.map (·.x)) = 0)
    (hny : listMin (block.cells.map (·.y)) = 0) :
    ((rotateBlockDefinition^[4]) block).cells.toFinset = block.cells.toFinset := by
  obtain ⟨v, hp⟩ := rotate_four_perm block
  have hxne : block.cells.map (·.x) ≠ [] := by
    intro hc
    exact hne (List.map_eq_nil_iff.mp hc)
  have hyne : block.cells.map (·.y) ≠ [] := by
    intro hc
    exact hne (List.map_eq_nil_iff.mp hc)
  have hne3 : (rotateBlockDefinition (rotateBlockDefinition
      (rotateBlockDefinition block))).cells ≠ [] :=
    rotate_cells_ne_nil (rotate_cells_ne_nil (rotate_cells_ne_nil hne))
  have e4 : (rotateBlockDefinition^[4]) block =
      rotateBlockDefinition (rotateBlockDefinition (rotateBlockDefinition
        (rotateBlockDefinition block))) := rfl
  have hmx : listMin (((rotateBlockDefinition^[4]) block).cells.map (·.x)) = 0 := by
    rw [e4]
    exact rotate_minX _ hne3
  have hmy : listMin (((rotateBlockDefinition^[4]) block).cells.map (·.y)) = 0 := by
    rw [e4]
    exact rotate_minY _ hne3
  have hxv : listMin (((rotateBlockDefinition^[4]) block).cells.map (·.x)) = v.x := by
    rw [listMin_eq_of_perm (hp.map (·.x)), List.map_map]
    have : ((·.x) ∘ trCoord v) = ((· + v.x) ∘ fun c : Coordinate => c.x) := by
      funext c
      rfl
    rw [this, ← List.map_map, listMin_map_add _ _ hxne, hnx]
    omega
  have hyv : listMin (((rotateBlockDefinition^[4]) block).cells.map (·.y)) = v.y := by
    rw [listMin_eq_of_perm (hp.map (·.y)), List.map_map]
    have : ((·.y) ∘ trCoord v) = ((· + v.y) ∘ fun c : Coordinate => c.y) := by
      funext c
      rfl
    rw [this, ← List.map_map, listMin_map_add _ _ hyne, hny]
    omega
  have hvx : v.x = 0 := by rw [← hxv, hmx]
  have hvy : v.y = 0 := by rw [← hyv, hmy]
  have hmap : block.cells.map (trCoord v) = block.cells := by
    have hid : ∀ c ∈ block.cells, trCoord v c = id c := by
      intro c _
      simp only [trCoord, hvx, hvy, id_eq]
      cases c
      simp
    rw [List.map_congr_left hid, List.map_id]
  rw [hmap] at hp
  ext a
  simp only [List.mem_toFinset]
  exact hp.mem_iff

/-- **C6.** For every shape with a non-empty, normalized offset list (the
data model of §3 keeps shapes normalized: minimum x and minimum y are `0`):
`rotateBlockDefinition` maps every offset by `(x, y) ↦ (−y, x)` and then
renormalizes by subtracting the new minima (the final sort only permutes
the offsets), the result again has minimum x and minimum y equal to `0`,
four rotations return the original offset set, and the identifier and
color pass through unchanged. -/
theorem rotate_spec (block : BlockDefinition)
    (hne : block.cells ≠ [])
    (hnx : listMin (block.cells.map (·.x)) = 0)
    (hny : listMin (block.cells.map (·.y)) = 0) :
    (rotateBlockDefinition block).id = block.id ∧
    (rotateBlockDefinition block).color = block.color ∧
    (rotateBlockDefinition block).cells.Perm
      ((block.cells.map rotCoord).map
        (trCoord
          ⟨-(listMin ((block.cells.map rotCoord).map (·.x))),
            -(listMin ((block.cells.map rotCoord).map (·.y)))⟩)) ∧
    listMin ((rotateBlockDefinition block).cells.map (·.x)) = 0 ∧
    listMin ((rotateBlockDefinition block).cells.map (·.y)) = 0 ∧
    ((rotateBlockDefinition^[4]) block).cells.toFinset = block.cells.toFinset :=
  ⟨rotateBlockDefinition_id block, rotateBlockDefinition_color block,
    by rw [rotateBlockDefinition_cells]; exact List.mergeSort_perm _ _,
    rotate_minX block hne, rotate_minY block hne,
    rotate_four_toFinset block hne hnx hny⟩

/-- The L-tromino template of the shape catalog, used as witness shape. -/
def lShape : BlockDefinition :=
  { id := "L", cells := [⟨0, 0⟩, ⟨1, 0⟩, ⟨0, 1⟩], color := "#eab308" }

theorem rotate_spec_witness :
    lShape.cells ≠ [] ∧
    listMin (lShape.cells.map (·.x)) = 0 ∧
    listMin (lShape.cells.map (·.y)) = 0 ∧
    ((rotateBlockDefinition lShape).id = lShape.id ∧
    (rotateBlockDefinition lShape).color = lShape.color ∧
    (rotateBlockDefinition lShape).cells.Perm
      ((lShape.cells.map rotCoord).map
        (trCoord
          ⟨-(listMin ((lShape.cells.map rotCoord).map (·.x))),
            -(listMin ((lShape.cells.map rotCoord).map (·.y)))⟩)) ∧
    listMin ((rotateBlockDefinition lShape).cells.map (·.x)) = 0 ∧
    listMin ((rotateBlockDefinition lShape).cells.map (·.y)) = 0 ∧
    ((rotateBlockDefinition^[4]) lShape).cells.toFinset = lShape.cells.toFinset) :=
  ⟨by decide, by decide, by decide,
    rotate_spec lShape (by decide) (by decide) (by decide)⟩

end Leftover
